import Mathlib

/-
Verification of the EngineUtilities memory-ownership library
(TSharedPointer / TWeakPointer / TUniquePtr / TStaticPtr).

The shared-ownership protocol is embedded as an operational semantics over
a single managed object, which is the universe the reference-counting
claims quantify over: a state holds the list of currently live
TSharedPointer instances (each either occupied, i.e. targeting the one
managed object, or empty, i.e. holding null ptr and null refCount), the
heap cell for the reference count (`none` once the cell has been freed by
`delete refCount`), and destruction counters for the managed object and
the cell.  Reading the count cell after it has been freed is undefined
behaviour in the C++ source; the embedding models such a read as `none`
(failure), never as a recovered value.
-/

namespace MemLib

/-- State of the shared-ownership world for one managed object.
`owners` lists the live TSharedPointer instances: `true` means the
instance holds the (object, refCount) pair, `false` means it is empty
(both fields null).  `cell` is the heap cell allocated by
`new int(1)`: `some v` while allocated with contents `v`, `none` after
`delete refCount`.  `objFrees` and `cellFrees` count how many times
`delete ptr` and `delete refCount` have run on the managed object and
its cell. -/
structure ShState where
  owners : List Bool
  cell : Option Int
  objFrees : Nat
  cellFrees : Nat
deriving DecidableEq, Repr

/-- Operations of the TSharedPointer public interface used on owners of
the one managed object.  Indices refer to positions in `owners`;
constructors append the new instance at the end. -/
inductive ShOp where
  | copyFrom (i : Nat)
  | moveFrom (i : Nat)
  | copyAssign (i j : Nat)
  | moveAssign (i j : Nat)
  | destroy (i : Nat)
deriving DecidableEq, Repr

/-- Release step shared by copy-assignment, move-assignment and the
destructor, transcribing
`if (refCount && --(*refCount) == 0) { delete ptr; delete refCount; }`.
`occupied` is whether the releasing instance holds a non-null refCount.
Decrementing a cell that was already freed is undefined behaviour and
yields `none`. -/
def releaseCell (s : ShState) (occupied : Bool) : Option ShState :=
  if occupied then
    match s.cell with
    | some v =>
        if v - 1 = 0 then
          some { s with cell := none,
                        objFrees := s.objFrees + 1,
                        cellFrees := s.cellFrees + 1 }
        else
          some { s with cell := some (v - 1) }
    | none => none
  else
    some s

/-- One step of the shared-ownership semantics.  Each branch transcribes
the corresponding member of TSharedPointer; an operation naming an index
outside `owners` does not correspond to any C++ call and leaves the
state unchanged. -/
def step (s : ShState) (op : ShOp) : Option ShState :=
  match op with
  | .copyFrom i =>
      if h : i < s.owners.length then
        if s.owners[i] then
          match s.cell with
          | some v => some { s with owners := s.owners ++ [true], cell := some (v + 1) }
          | none => none
        else
          some { s with owners := s.owners ++ [false] }
      else some s
  | .moveFrom i =>
      if h : i < s.owners.length then
        some { s with owners := (s.owners.set i false) ++ [s.owners[i]] }
      else some s
  | .copyAssign i j =>
      if i = j then some s
      else if hi : i < s.owners.length then
        if hj : j < s.owners.length then
          match releaseCell s (s.owners[i]) with
          | some s1 =>
              let oj := s.owners[j]
              let s2 := { s1 with owners := s1.owners.set i oj }
              if oj then
                match s2.cell with
                | some v => some { s2 with cell := some (v + 1) }
                | none => none
              else some s2
          | none => none
        else some s
      else some s
  | .moveAssign i j =>
      if i = j then some s
      else if hi : i < s.owners.length then
        if hj : j < s.owners.length then
          match releaseCell s (s.owners[i]) with
          | some s1 =>
              some { s1 with owners := (s1.owners.set i (s.owners[j])).set j false }
          | none => none
        else some s
      else some s
  | .destroy i =>
      if h : i < s.owners.length then
        match releaseCell s (s.owners[i]) with
        | some s1 => some { s1 with owners := s1.owners.set i false }
        | none => none
      else some s

/-- State produced by `TSharedPointer(T* rawPtr)` on a fresh object: one
occupied owner, a fresh cell holding 1, nothing freed yet. -/
def sharedFromRawCtor : ShState :=
  { owners := [true], cell := some 1, objFrees := 0, cellFrees := 0 }

/-- State produced by `MakeShared<T>(args...)`, whose body is
`return TSharedPointer<T>(new T(args...));`: it allocates a fresh object
and hands it to the raw-pointer constructor. -/
def makeSharedState : ShState := sharedFromRawCtor

/-- Run a sequence of operations starting from the raw-pointer
construction of the first owner. -/
def runShared (ops : List ShOp) : Option ShState :=
  ops.foldlM step sharedFromRawCtor

/-- Number of currently live TSharedPointer instances targeting the
managed object. -/
def liveCount (s : ShState) : Nat := s.owners.count true

/-- Transcription of `TWeakPointer<T>::lock`.  `attached` is whether the
weak pointer holds the (non-null) ptr and refCount copied from an
occupied owner.  The body reads `*refCount`; if the cell has been freed
that read is undefined behaviour, modelled as `none`.  When the read
sees a positive value, `TSharedPointer<T>(ptr, refCount)` appends a new
occupied owner and increments the cell; otherwise the empty constructor
yields a new empty owner. -/
def lock (s : ShState) (attached : Bool) : Option ShState :=
  if attached then
    match s.cell with
    | some v =>
        if v > 0 then
          some { s with owners := s.owners ++ [true], cell := some (v + 1) }
        else
          some { s with owners := s.owners ++ [false] }
    | none => none
  else
    some { s with owners := s.owners ++ [false] }

/-- Invariant of the shared-ownership protocol: while the cell is
allocated its contents equal the number of live occupied owners and
nothing has been freed; once the cell is gone no occupied owner remains
and object and cell have each been freed exactly once. -/
def ShInv (s : ShState) : Prop :=
  (∀ v : Int, s.cell = some v →
      v = (liveCount s : Int) ∧ s.objFrees = 0 ∧ s.cellFrees = 0)
  ∧ (s.cell = none →
      liveCount s = 0 ∧ s.objFrees = 1 ∧ s.cellFrees = 1)

lemma count_true_append (l : List Bool) (b : Bool) :
    (l ++ [b]).count true = l.count true + (if b then 1 else 0) := by
  cases b
  · simp only [List.count_append, List.count_cons, List.count_nil,
      beq_self_eq_true, if_true]
    norm_num
  · simp only [List.count_append, List.count_cons, List.count_nil,
      beq_self_eq_true, if_true]

lemma count_true_pos (l : List Bool) (i : Nat) (h : i < l.length)
    (hg : l[i] = true) : 1 ≤ l.count true := by
  have hm : (true : Bool) ∈ l := by
    rw [← hg]; exact List.getElem_mem h
  simpa using List.count_pos_iff.mpr hm

lemma count_true_set (l : List Bool) (i : Nat) (h : i < l.length) (b : Bool) :
    (l.set i b).count true + (if l[i] then 1 else 0)
      = l.count true + (if b then 1 else 0) := by
  have hset := List.count_set b true l i h
  cases hg : l[i] with
  | false => cases b <;> simp [hg] at hset ⊢ <;> omega
  | true =>
      have hpos := count_true_pos l i h hg
      cases b <;> simp [hg] at hset ⊢ <;> omega

lemma two_le_count_true (l : List Bool) (i j : Nat) (hi : i < l.length)
    (hj : j < l.length) (hij : i ≠ j) (h1 : l[i] = true)
    (h2 : l[j] = true) : 2 ≤ l.count true := by
  have hjs : j < (l.set i false).length := by simpa using hj
  have hj2 : (l.set i false)[j] = true := by
    rw [List.getElem_set_ne (by omega)]
    exact h2
  have hp1 := count_true_pos (l.set i false) j hjs hj2
  have hset := count_true_set l i hi false
  rw [h1] at hset
  simp at hset
  omega

lemma cell_of_occupied (s : ShState) (hInv : ShInv s) (i : Nat)
    (hi : i < s.owners.length) (ho : s.owners[i] = true) :
    s.cell = some (liveCount s : Int) ∧ 1 ≤ liveCount s
      ∧ s.objFrees = 0 ∧ s.cellFrees = 0 := by
  have h1 : 1 ≤ liveCount s := count_true_pos s.owners i hi ho
  cases hc : s.cell with
  | none =>
      have hz := (hInv.2 hc).1
      exact absurd hz (by omega)
  | some v =>
      have hv := hInv.1 v hc
      refine ⟨?_, h1, hv.2.1, hv.2.2⟩
      rw [hv.1]

lemma preserve_copyFrom (s : ShState) (hInv : ShInv s) (i : Nat) :
    ∃ t, step s (.copyFrom i) = some t ∧ ShInv t := by
  by_cases h : i < s.owners.length
  · cases hg : s.owners[i] with
    | false =>
        have hs : step s (.copyFrom i)
            = some { s with owners := s.owners ++ [false] } := by
          simp only [step, dif_pos h, hg, if_false, Bool.false_eq_true]
        refine ⟨_, hs, ?_, ?_⟩
        · intro v hv
          obtain ⟨h1, h2, h3⟩ := hInv.1 v hv
          refine ⟨?_, h2, h3⟩
          simp only [liveCount, count_true_append, Bool.false_eq_true, if_false]
          simpa using h1
        · intro hn
          obtain ⟨h1, h2, h3⟩ := hInv.2 hn
          refine ⟨?_, h2, h3⟩
          simp only [liveCount, count_true_append, Bool.false_eq_true, if_false]
          simpa using h1
    | true =>
        obtain ⟨hc, h1, ho, hcf⟩ := cell_of_occupied s hInv i h hg
        have hs : step s (.copyFrom i)
            = some { s with owners := s.owners ++ [true],
                            cell := some ((liveCount s : Int) + 1) } := by
          simp only [step, dif_pos h, hg, if_true, hc]
        refine ⟨_, hs, ?_, ?_⟩
        · intro v hv
          simp only [Option.some.injEq] at hv
          refine ⟨?_, ho, hcf⟩
          subst hv
          simp only [liveCount, count_true_append, if_true]
          push_cast
          ring
        · intro hn
          simp at hn
  · exact ⟨s, by simp [step, h], hInv⟩

lemma preserve_moveFrom (s : ShState) (hInv : ShInv s) (i : Nat) :
    ∃ t, step s (.moveFrom i) = some t ∧ ShInv t := by
  by_cases h : i < s.owners.length
  · have hs : step s (.moveFrom i)
        = some { s with owners := (s.owners.set i false) ++ [s.owners[i]] } := by
      simp only [step, dif_pos h]
    have hcount : ((s.owners.set i false) ++ [s.owners[i]]).count true
        = s.owners.count true := by
      have hset := count_true_set s.owners i h false
      rw [count_true_append]
      cases hg : s.owners[i] with
      | false => rw [hg] at hset; norm_num at hset ⊢; omega
      | true => rw [hg] at hset; norm_num at hset ⊢; omega
    refine ⟨_, hs, ?_, ?_⟩
    · intro v hv
      have := hInv.1 v hv
      refine ⟨?_, this.2.1, this.2.2⟩
      simp only [liveCount] at *
      rw [hcount]
      exact this.1
    · intro hn
      have := hInv.2 hn
      refine ⟨?_, this.2.1, this.2.2⟩
      simp only [liveCount] at *
      rw [hcount]
      exact this.1
  · exact ⟨s, by simp [step, h], hInv⟩

lemma preserve_destroy (s : ShState) (hInv : ShInv s) (i : Nat) :
    ∃ t, step s (.destroy i) = some t ∧ ShInv t := by
  by_cases h : i < s.owners.length
  · cases hg : s.owners[i] with
    | false =>
        have hs : step s (.destroy i)
            = some { s with owners := s.owners.set i false } := by
          simp only [step, dif_pos h, hg, releaseCell, Bool.false_eq_true, if_false]
        have hcnt : (s.owners.set i false).count true = s.owners.count true := by
          have hset := count_true_set s.owners i h false
          rw [hg] at hset
          norm_num at hset
          exact hset
        refine ⟨_, hs, ?_, ?_⟩
        · intro v hv
          obtain ⟨h1, h2, h3⟩ := hInv.1 v hv
          refine ⟨?_, h2, h3⟩
          simp only [liveCount]
          rw [hcnt]
          exact h1
        · intro hn
          obtain ⟨h1, h2, h3⟩ := hInv.2 hn
          refine ⟨?_, h2, h3⟩
          simp only [liveCount]
          rw [hcnt]
          exact h1
    | true =>
        obtain ⟨hc, h1, ho, hcf⟩ := cell_of_occupied s hInv i h hg
        have hcnt : (s.owners.set i false).count true + 1 = s.owners.count true := by
          have hset := count_true_set s.owners i h false
          rw [hg] at hset
          norm_num at hset
          exact hset
        by_cases hone : liveCount s = 1
        · have hs : step s (.destroy i)
              = some { s with owners := s.owners.set i false, cell := none,
                              objFrees := s.objFrees + 1,
                              cellFrees := s.cellFrees + 1 } := by
            simp only [step, dif_pos h, hg, releaseCell, if_true, hc, hone]
            norm_num
          refine ⟨_, hs, ?_, ?_⟩
          · intro v hv
            simp at hv
          · intro hn
            refine ⟨?_, by simp [ho], by simp [hcf]⟩
            show (s.owners.set i false).count true = 0
            have hlc : liveCount s = s.owners.count true := rfl
            omega
        · have hmain : ¬ ((liveCount s : Int) - 1 = 0) := by
            intro hcontra
            exact hone (by omega)
          have hs : step s (.destroy i)
              = some { s with owners := s.owners.set i false,
                              cell := some ((liveCount s : Int) - 1) } := by
            simp only [step, dif_pos h, hg, releaseCell, if_true, hc,
              if_neg hmain]
          refine ⟨_, hs, ?_, ?_⟩
          · intro v hv
            simp only [Option.some.injEq] at hv
            refine ⟨?_, ho, hcf⟩
            subst hv
            simp only [liveCount] at *
            omega
          · intro hn
            simp at hn
  · exact ⟨s, by simp [step, h], hInv⟩

lemma preserve_copyAssign (s : ShState) (hInv : ShInv s) (i j : Nat) :
    ∃ t, step s (.copyAssign i j) = some t ∧ ShInv t := by
  have hlc : liveCount s = s.owners.count true := rfl
  by_cases hij : i = j
  · exact ⟨s, by simp [step, hij], hInv⟩
  by_cases hi : i < s.owners.length
  swap
  · exact ⟨s, by simp [step, hij, hi], hInv⟩
  by_cases hj : j < s.owners.length
  swap
  · exact ⟨s, by simp [step, hij, hi, hj], hInv⟩
  cases hgi : s.owners[i] with
  | false =>
      cases hgj : s.owners[j] with
      | false =>
          have hs : step s (.copyAssign i j)
              = some { s with owners := s.owners.set i false } := by
            simp only [step, if_neg hij, dif_pos hi, dif_pos hj, hgi, hgj,
              releaseCell, Bool.false_eq_true, if_false]
          have hcnt : (s.owners.set i false).count true
              = s.owners.count true := by
            have hset := count_true_set s.owners i hi false
            rw [hgi] at hset
            norm_num at hset
            exact hset
          refine ⟨_, hs, ?_, ?_⟩
          · intro v hv
            obtain ⟨h1, h2, h3⟩ := hInv.1 v hv
            refine ⟨?_, h2, h3⟩
            show v = ((s.owners.set i false).count true : Int)
            omega
          · intro hn
            obtain ⟨h1, h2, h3⟩ := hInv.2 hn
            refine ⟨?_, h2, h3⟩
            show (s.owners.set i false).count true = 0
            omega
      | true =>
          obtain ⟨hc, h1, ho, hcf⟩ := cell_of_occupied s hInv j hj hgj
          have hs : step s (.copyAssign i j)
              = some { s with owners := s.owners.set i true,
                              cell := some ((liveCount s : Int) + 1) } := by
            simp only [step, if_neg hij, dif_pos hi, dif_pos hj, hgi, hgj,
              releaseCell, Bool.false_eq_true, if_false, if_true, hc]
          have hcnt : (s.owners.set i true).count true
              = s.owners.count true + 1 := by
            have hset := count_true_set s.owners i hi true
            rw [hgi] at hset
            norm_num at hset
            exact hset
          refine ⟨_, hs, ?_, ?_⟩
          · intro v hv
            simp only [Option.some.injEq] at hv
            refine ⟨?_, ho, hcf⟩
            subst hv
            show (liveCount s : Int) + 1 = ((s.owners.set i true).count true : Int)
            omega
          · intro hn
            simp at hn
  | true =>
      obtain ⟨hc, h1, ho, hcf⟩ := cell_of_occupied s hInv i hi hgi
      have hcnt : (s.owners.set i false).count true + 1
          = s.owners.count true := by
        have hset := count_true_set s.owners i hi false
        rw [hgi] at hset
        norm_num at hset
        exact hset
      by_cases hone : liveCount s = 1
      · have hgjf : s.owners[j] = false := by
          cases hgj : s.owners[j] with
          | false => rfl
          | true =>
              have := two_le_count_true s.owners i j hi hj hij hgi hgj
              omega
        rw [hone] at hc
        norm_num at hc
        have hs : step s (.copyAssign i j)
            = some { s with owners := s.owners.set i false, cell := none,
                            objFrees := s.objFrees + 1,
                            cellFrees := s.cellFrees + 1 } := by
          simp only [step, if_neg hij, dif_pos hi, dif_pos hj, hgi, hgjf,
            releaseCell, Bool.false_eq_true, if_false, if_true, hc]
          norm_num
        refine ⟨_, hs, ?_, ?_⟩
        · intro v hv
          simp at hv
        · intro hn
          refine ⟨?_, by simp [ho], by simp [hcf]⟩
          show (s.owners.set i false).count true = 0
          omega
      · have hmain : ¬ ((liveCount s : Int) - 1 = 0) := by
          intro hcontra
          exact hone (by omega)
        cases hgj : s.owners[j] with
        | true =>
            have hs : step s (.copyAssign i j)
                = some { s with owners := s.owners.set i true,
                                cell := some ((liveCount s : Int) - 1 + 1) } := by
              simp only [step, if_neg hij, dif_pos hi, dif_pos hj, hgi, hgj,
                releaseCell, if_true, hc, if_neg hmain]
            have hcnt2 : (s.owners.set i true).count true
                = s.owners.count true := by
              have hset := count_true_set s.owners i hi true
              rw [hgi] at hset
              norm_num at hset
              exact hset
            refine ⟨_, hs, ?_, ?_⟩
            · intro v hv
              simp only [Option.some.injEq] at hv
              refine ⟨?_, ho, hcf⟩
              subst hv
              show (liveCount s : Int) - 1 + 1
                  = ((s.owners.set i true).count true : Int)
              omega
            · intro hn
              simp at hn
        | false =>
            have hs : step s (.copyAssign i j)
                = some { s with owners := s.owners.set i false,
                                cell := some ((liveCount s : Int) - 1) } := by
              simp only [step, if_neg hij, dif_pos hi, dif_pos hj, hgi, hgj,
                releaseCell, if_true, hc, if_neg hmain, Bool.false_eq_true,
                if_false]
            refine ⟨_, hs, ?_, ?_⟩
            · intro v hv
              simp only [Option.some.injEq] at hv
              refine ⟨?_, ho, hcf⟩
              subst hv
              show (liveCount s : Int) - 1
                  = ((s.owners.set i false).count true : Int)
              omega
            · intro hn
              simp at hn

lemma count_double_set (l : List Bool) (i j : Nat) (hi : i < l.length)
    (hj : j < l.length) (hij : i ≠ j) (b : Bool) (hbj : l[j] = b) :
    ((l.set i b).set j false).count true + (if l[i] then 1 else 0)
      = l.count true := by
  have hset1 := count_true_set l i hi b
  have hjs : j < (l.set i b).length := by simpa using hj
  have hset2 := count_true_set (l.set i b) j hjs false
  have hsj : (l.set i b)[j] = b := by
    rw [List.getElem_set_ne (by omega)]
    exact hbj
  rw [hsj] at hset2
  cases hgb : l[i] <;> cases b <;>
    rw [hgb] at hset1 <;> norm_num at hset1 hset2 ⊢ <;> omega

lemma preserve_moveAssign (s : ShState) (hInv : ShInv s) (i j : Nat) :
    ∃ t, step s (.moveAssign i j) = some t ∧ ShInv t := by
  have hlc : liveCount s = s.owners.count true := rfl
  by_cases hij : i = j
  · exact ⟨s, by simp [step, hij], hInv⟩
  by_cases hi : i < s.owners.length
  swap
  · exact ⟨s, by simp [step, hij, hi], hInv⟩
  by_cases hj : j < s.owners.length
  swap
  · exact ⟨s, by simp [step, hij, hi, hj], hInv⟩
  cases hgi : s.owners[i] with
  | false =>
      have hs : step s (.moveAssign i j)
          = some { s with owners := (s.owners.set i (s.owners[j])).set j false } := by
        simp only [step, if_neg hij, dif_pos hi, dif_pos hj, hgi,
          releaseCell, Bool.false_eq_true, if_false]
      have hcnt := count_double_set s.owners i j hi hj hij (s.owners[j]) rfl
      rw [hgi] at hcnt
      norm_num at hcnt
      refine ⟨_, hs, ?_, ?_⟩
      · intro v hv
        obtain ⟨h1, h2, h3⟩ := hInv.1 v hv
        refine ⟨?_, h2, h3⟩
        show v = (((s.owners.set i (s.owners[j])).set j false).count true : Int)
        omega
      · intro hn
        obtain ⟨h1, h2, h3⟩ := hInv.2 hn
        refine ⟨?_, h2, h3⟩
        show ((s.owners.set i (s.owners[j])).set j false).count true = 0
        omega
  | true =>
      obtain ⟨hc, h1, ho, hcf⟩ := cell_of_occupied s hInv i hi hgi
      have hcnt := count_double_set s.owners i j hi hj hij (s.owners[j]) rfl
      rw [hgi] at hcnt
      norm_num at hcnt
      by_cases hone : liveCount s = 1
      · rw [hone] at hc
        norm_num at hc
        have hs : step s (.moveAssign i j)
            = some { s with owners := (s.owners.set i (s.owners[j])).set j false,
                            cell := none,
                            objFrees := s.objFrees + 1,
                            cellFrees := s.cellFrees + 1 } := by
          simp only [step, if_neg hij, dif_pos hi, dif_pos hj, hgi,
            releaseCell, if_true, hc]
          norm_num
        refine ⟨_, hs, ?_, ?_⟩
        · intro v hv
          simp at hv
        · intro hn
          refine ⟨?_, by simp [ho], by simp [hcf]⟩
          show ((s.owners.set i (s.owners[j])).set j false).count true = 0
          omega
      · have hmain : ¬ ((liveCount s : Int) - 1 = 0) := by
          intro hcontra
          exact hone (by omega)
        have hs : step s (.moveAssign i j)
            = some { s with owners := (s.owners.set i (s.owners[j])).set j false,
                            cell := some ((liveCount s : Int) - 1) } := by
          simp only [step, if_neg hij, dif_pos hi, dif_pos hj, hgi,
            releaseCell, if_true, hc, if_neg hmain]
        refine ⟨_, hs, ?_, ?_⟩
        · intro v hv
          simp only [Option.some.injEq] at hv
          refine ⟨?_, ho, hcf⟩
          subst hv
          show (liveCount s : Int) - 1
              = (((s.owners.set i (s.owners[j])).set j false).count true : Int)
          omega
        · intro hn
          simp at hn

lemma step_preserves (s : ShState) (op : ShOp) (hInv : ShInv s) :
    ∃ t, step s op = some t ∧ ShInv t := by
  cases op with
  | copyFrom i => exact preserve_copyFrom s hInv i
  | moveFrom i => exact preserve_moveFrom s hInv i
  | copyAssign i j => exact preserve_copyAssign s hInv i j
  | moveAssign i j => exact preserve_moveAssign s hInv i j
  | destroy i => exact preserve_destroy s hInv i

lemma foldlM_step_inv (ops : List ShOp) (s : ShState) (h : ShInv s) :
    ∃ t, ops.foldlM step s = some t ∧ ShInv t := by
  induction ops generalizing s with
  | nil => exact ⟨s, rfl, h⟩
  | cons op rest ih =>
      obtain ⟨s1, hs1, hi1⟩ := step_preserves s op h
      obtain ⟨t, ht, hit⟩ := ih s1 hi1
      refine ⟨t, ?_, hit⟩
      rw [List.foldlM_cons, hs1]
      simpa using ht

lemma sharedFromRawCtor_inv : ShInv sharedFromRawCtor := by
  constructor
  · intro v hv
    simp only [sharedFromRawCtor, Option.some.injEq] at hv
    subst hv
    simp [liveCount, sharedFromRawCtor]
  · intro hn
    simp [sharedFromRawCtor] at hn

lemma runShared_inv (ops : List ShOp) :
    ∃ t, runShared ops = some t ∧ ShInv t :=
  foldlM_step_inv ops sharedFromRawCtor sharedFromRawCtor_inv

/-- Field-level view of one TSharedPointer instance, recording only
whether each of its two members (`ptr`, `refCount`) is null.  This is
the level at which the both-null-or-both-non-null pairing lives. -/
structure RawShared where
  ptrNull : Bool
  cellNull : Bool
deriving DecidableEq, Repr

/-- Pairing property of a TSharedPointer instance: the object pointer
and the count-cell pointer are both null or both non-null. -/
def paired (r : RawShared) : Prop := r.ptrNull = r.cellNull

instance (r : RawShared) : Decidable (paired r) := by
  unfold paired; infer_instance

/-- Fields set by `TSharedPointer() : ptr(nullptr), refCount(nullptr)`. -/
def rawCtorDefault : RawShared := ⟨true, true⟩

/-- Fields set by `TSharedPointer(T* rawPtr) : ptr(rawPtr), refCount(new int(1))`:
the cell pointer is always non-null, the object pointer is null exactly
when the argument is. -/
def rawCtorFromRaw (rawIsNull : Bool) : RawShared := ⟨rawIsNull, false⟩

/-- Fields set by `TSharedPointer(T* rawPtr, int* existingRefCount)`:
both members are copied from the arguments unchanged (the body only
increments the cell when non-null, which does not change nullness). -/
def rawCtorAttach (rawIsNull cellIsNull : Bool) : RawShared :=
  ⟨rawIsNull, cellIsNull⟩

/-- Fields set by the copy constructor: both members copied from the
source (the increment does not change nullness). -/
def rawCopyCtor (r : RawShared) : RawShared := ⟨r.ptrNull, r.cellNull⟩

/-- Fields after the move constructor: the destination takes the pair,
the source is left with both members null.  Result is
(destination, source after the move). -/
def rawMoveCtor (r : RawShared) : RawShared × RawShared :=
  (⟨r.ptrNull, r.cellNull⟩, ⟨true, true⟩)

/-- Fields of the destination after copy-assignment from `src` (the
release of the old pair deletes objects but the fields are then
overwritten with the pair of `src`). -/
def rawCopyAssign (src : RawShared) : RawShared := ⟨src.ptrNull, src.cellNull⟩

/-- Fields after move-assignment from `src`: destination takes the pair
of `src`, `src` is left both-null.  Result is (destination, source). -/
def rawMoveAssign (src : RawShared) : RawShared × RawShared :=
  (⟨src.ptrNull, src.cellNull⟩, ⟨true, true⟩)

/-- State of the type-keyed static slot of `TStaticPtr<T>` for one type
T: the slot content (an object identifier, or `none` for nullptr) and
the list of object identifiers freed so far by `delete instance`. -/
structure StState where
  slot : Option Nat
  freed : List Nat
deriving DecidableEq, Repr

/-- Operations of the TStaticPtr interface.  Objects are named by
identifiers; `ctorRaw v` is `TStaticPtr(T* rawPtr)` with `v` the
argument (`none` for a null pointer), `dtor` is the destructor of any
instance, `reset v` is the static `reset(rawPtr = nullptr)`. -/
inductive StOp where
  | defaultCtor
  | ctorRaw (v : Option Nat)
  | dtor
  | getOp
  | isNullOp
  | reset (v : Option Nat)
deriving DecidableEq, Repr

/-- The static member `TStaticPtr<T>::instance` starts as `nullptr` and
nothing has been freed before any call. -/
def initStatic : StState := { slot := none, freed := [] }

/-- One call on the type-keyed slot, transcribing the members of
TStaticPtr.  The default constructor, `get` and `isNull` do not touch
the slot; the raw-pointer constructor and `reset` delete the current
object (if any) and store the argument; the destructor deletes the
current object (if any) and nulls the slot. -/
def stepSt (s : StState) (op : StOp) : StState :=
  match op with
  | .defaultCtor => s
  | .ctorRaw v =>
      match s.slot with
      | some o => { slot := v, freed := s.freed ++ [o] }
      | none => { s with slot := v }
  | .dtor =>
      match s.slot with
      | some o => { slot := none, freed := s.freed ++ [o] }
      | none => s
  | .getOp => s
  | .isNullOp => s
  | .reset v =>
      match s.slot with
      | some o => { slot := v, freed := s.freed ++ [o] }
      | none => { s with slot := v }

/-- Transcription of `TStaticPtr<T>::get`: the current slot content. -/
def getSt (s : StState) : Option Nat := s.slot

/-- Transcription of `TStaticPtr<T>::isNull`. -/
def isNullSt (s : StState) : Bool := s.slot.isNone

/-- One TUniquePtr instance: the owned object identifier, or `none`. -/
structure UPtr where
  ptr : Option Nat
deriving DecidableEq, Repr

/-- Transcription of `TUniquePtr<T>::isNull`. -/
def uIsNull (u : UPtr) : Bool := u.ptr.isNone

/-- Move constructor of TUniquePtr: the new instance takes the pointer
of the source and the source is nulled.  Result is
(destination, source after the move).  No delete runs. -/
def uMoveCtor (src : UPtr) : UPtr × UPtr := (⟨src.ptr⟩, ⟨none⟩)

/-- Move assignment of TUniquePtr, transcribing the body guarded by
`if (this != &other)`: `same` is whether destination and source are the
same instance.  When distinct, `delete ptr` frees the object the
destination owned (deleting nullptr frees nothing), then the pointer is
transferred and the source nulled.  Result is
(destination, source, freed list). -/
def uMoveAssign (same : Bool) (dst src : UPtr) (freed : List Nat) :
    UPtr × UPtr × List Nat :=
  if same then (dst, src, freed)
  else (⟨src.ptr⟩, ⟨none⟩, freed ++ dst.ptr.toList)

lemma set_getElem_self_eq (l : List Bool) (i : Nat) (h : i < l.length) :
    l.set i (l[i]) = l := by
  apply List.ext_getElem
  · simp
  · intro n h1 h2
    by_cases hn : i = n
    · subst hn; simp
    · rw [List.getElem_set_ne hn]

/-- C1: over every sequence of copy-construction, move-construction,
copy-assignment, move-assignment and destruction on TSharedPointer
instances sharing one managed object, starting from the raw-pointer
construction of the first owner, execution never reads freed memory and
reaches a state in which the count cell, while allocated, holds exactly
the number of currently live TSharedPointer instances targeting the
object with nothing freed, and once the cell is gone (count reached
zero) no live owner targets the object and the managed object and the
cell have each been freed exactly once. -/
theorem c1_refcount_matches_live_owners (ops : List ShOp) :
    ∃ t, runShared ops = some t ∧
      (∀ v : Int, t.cell = some v →
          v = (liveCount t : Int) ∧ t.objFrees = 0 ∧ t.cellFrees = 0) ∧
      (t.cell = none →
          liveCount t = 0 ∧ t.objFrees = 1 ∧ t.cellFrees = 1) :=
  runShared_inv ops

/-- C3: self-copy-assignment and self-move-assignment on any
TSharedPointer instance, empty or occupied, leave the whole state (the
stored pair of every owner, the count cell and the free counters)
unchanged, because both operators are guarded by the identity check
`if (this != &other)`. -/
theorem c3_self_assignment_noop (s : ShState) (i : Nat) :
    step s (.copyAssign i i) = some s ∧ step s (.moveAssign i i) = some s := by
  constructor <;> simp [step]

/-- C9: copy-assignment between two distinct TSharedPointer instances
that already target the same object and the same cell, with the cell
value at least 2 beforehand, leaves the state unchanged: the
intermediate decrement never reaches zero, so nothing is freed, and the
following increment restores the original count. -/
theorem c9_copy_assign_shared_target_noop (s : ShState) (i j : Nat)
    (hi : i < s.owners.length) (hj : j < s.owners.length) (hij : i ≠ j)
    (hoi : s.owners[i] = true) (hoj : s.owners[j] = true)
    (v : Int) (hc : s.cell = some v) (hv : 2 ≤ v) :
    step s (.copyAssign i j) = some s := by
  have hmain : ¬ (v - 1 = 0) := by omega
  have hset : s.owners.set i true = s.owners := by
    conv_lhs => rw [← hoi]
    exact set_getElem_self_eq s.owners i hi
  have hvv : v - 1 + 1 = v := by ring
  simp only [step, if_neg hij, dif_pos hi, dif_pos hj, hoi, hoj, releaseCell,
    if_true, hc, if_neg hmain, hset, hvv, Option.some.injEq]
  rw [← hc]

/-- Witness for C9: a state with two occupied owners over the same
object and a cell holding 2 is left unchanged by the copy-assignment
from the second owner onto the first. -/
theorem c9_witness :
    step ⟨[true, true], some 2, 0, 0⟩ (.copyAssign 0 1)
      = some ⟨[true, true], some 2, 0, 0⟩ :=
  c9_copy_assign_shared_target_noop ⟨[true, true], some 2, 0, 0⟩ 0 1
    (by decide) (by decide) (by decide) (by decide) (by decide) 2 rfl (by decide)

/-- C2 (code bug): while the single owner is alive, lock on an attached
TWeakPointer does return a new owning TSharedPointer over the same
object with the count incremented to 2; but after the destruction of
the last owner the destructor has run `delete refCount`, so the body of
lock evaluates `*refCount` on freed memory, which is undefined
behaviour (modelled as `none`) instead of the empty TSharedPointer the
specification and the documentation of lock promise. -/
theorem c2_lock_use_after_free :
    lock sharedFromRawCtor true
        = some { owners := [true, true], cell := some 2,
                 objFrees := 0, cellFrees := 0 } ∧
    (runShared [.destroy 0]).bind (fun s => lock s true) = none := by
  constructor <;> rfl

/-- C8: MakeShared builds exactly the state of the raw-pointer
constructor applied to the freshly built object, an occupied owner
whose newly allocated count cell holds exactly 1 with nothing freed. -/
theorem c8_make_shared_equiv_raw_ctor :
    makeSharedState = sharedFromRawCtor ∧
    makeSharedState.cell = some 1 ∧
    liveCount makeSharedState = 1 ∧
    makeSharedState.objFrees = 0 ∧ makeSharedState.cellFrees = 0 :=
  ⟨rfl, rfl, rfl, rfl, rfl⟩

/-- C5 fails as stated: the public two-argument constructor
`TSharedPointer(T*, int*)` called with a non-null object pointer and a
null count-cell pointer produces an instance holding only one of the
pair. -/
theorem c5_counterexample : ¬ paired (rawCtorAttach false true) := by
  decide

/-- C5 amended: the default constructor and the raw-pointer constructor
on a non-null pointer produce paired instances, and copy construction,
move construction, copy assignment and move assignment started from
paired instances produce only paired instances; only the two-argument
attach constructor with mismatched argument nullness (and the
raw-pointer constructor applied to a null pointer) escape the pairing. -/
theorem c5_pairing_preserved :
    paired rawCtorDefault ∧
    paired (rawCtorFromRaw false) ∧
    (∀ r, paired r → paired (rawCopyCtor r)) ∧
    (∀ r, paired r → paired (rawMoveCtor r).1 ∧ paired (rawMoveCtor r).2) ∧
    (∀ r, paired r → paired (rawCopyAssign r)) ∧
    (∀ r, paired r → paired (rawMoveAssign r).1 ∧ paired (rawMoveAssign r).2) := by
  refine ⟨rfl, rfl, ?_, ?_, ?_, ?_⟩ <;> intro r hr <;>
    simp_all [paired, rawCopyCtor, rawMoveCtor, rawCopyAssign, rawMoveAssign]

/-- Witness for C5 amended: copying a default-constructed instance
yields a paired instance. -/
theorem c5_witness : paired (rawCopyCtor rawCtorDefault) :=
  c5_pairing_preserved.2.2.1 rawCtorDefault (by decide)

/-- C4 fails as stated: destroying a TStaticPtr instance while the
type-keyed slot is non-empty mutates the slot (the held object is freed
and the slot cleared), so reset is not the only operation that mutates
the slot. -/
theorem c4_counterexample :
    (stepSt { slot := some 0, freed := [] } .dtor).slot ≠ some 0 := by
  decide

/-- C4 amended: the slot starts empty before any call, and get, isNull
and default construction never mutate the slot or free anything; the
operations that mutate the slot are reset, the raw-pointer constructor
and the destructor of an instance. -/
theorem c4_slot_frame :
    initStatic.slot = none ∧
    (∀ s, stepSt s .getOp = s ∧ stepSt s .isNullOp = s
        ∧ stepSt s .defaultCtor = s) :=
  ⟨rfl, fun _ => ⟨rfl, rfl, rfl⟩⟩

/-- C7: the static reset(newObj) frees the object previously held in
the slot (if any) exactly once, appending exactly its identifier to the
freed list, and afterwards get returns newObj; reset() with no argument
frees the current object the same way and afterwards isNull is true. -/
theorem c7_reset_semantics (s : StState) (v : Option Nat) :
    getSt (stepSt s (.reset v)) = v ∧
    (stepSt s (.reset v)).freed = s.freed ++ s.slot.toList ∧
    isNullSt (stepSt s (.reset none)) = true := by
  refine ⟨?_, ?_, ?_⟩ <;> cases hs : s.slot <;>
    simp [stepSt, getSt, isNullSt, hs]

/-- C10: the destructor of a TStaticPtr instance frees the object
currently in the slot (if any, appending exactly its identifier to the
freed list) and leaves the slot empty with isNull true, and the
raw-pointer constructor likewise frees any previously held slot object
and stores its argument: instance construction and destruction mutate
the shared slot, not only reset. -/
theorem c10_ctor_dtor_mutate_slot (s : StState) (v : Option Nat) :
    (stepSt s .dtor).slot = none ∧
    isNullSt (stepSt s .dtor) = true ∧
    (stepSt s .dtor).freed = s.freed ++ s.slot.toList ∧
    (stepSt s (.ctorRaw v)).slot = v ∧
    (stepSt s (.ctorRaw v)).freed = s.freed ++ s.slot.toList := by
  refine ⟨?_, ?_, ?_, ?_, ?_⟩ <;> cases hs : s.slot <;>
    simp [stepSt, isNullSt, hs]

/-- C6: move-construction of TUniquePtr leaves the source empty
(isNull true) and the destination holding the original object pointer;
move-assignment between distinct instances does the same after freeing
exactly the object the destination owned.  Copy construction and copy
assignment are declared deleted in the class, so no copy operation
exists in the model. -/
theorem c6_unique_move_semantics (src dst : UPtr) (freed : List Nat) :
    (uMoveCtor src).1.ptr = src.ptr ∧
    uIsNull (uMoveCtor src).2 = true ∧
    (uMoveAssign false dst src freed).1.ptr = src.ptr ∧
    uIsNull (uMoveAssign false dst src freed).2.1 = true ∧
    (uMoveAssign false dst src freed).2.2 = freed ++ dst.ptr.toList := by
  simp [uMoveCtor, uMoveAssign, uIsNull]

end MemLib
